import Mathlib

/-!
Verification of the benchserve benchmark-control coordinator.

The Go sources are embedded shallowly:
- `testing.B`, as far as the server reflects into it, becomes `BState`;
  a benchmark body (`InternalBenchmark.F`) is an arbitrary function from
  the `testing.B` state and the process-wide GOMAXPROCS value to updated
  values of both, since a body may mutate either.
- The process-wide GOMAXPROCS setting is threaded explicitly as an `Int`
  argument and result (`runtime.GOMAXPROCS(n)` sets it only when `n >= 1`).
- Every `fmt` print call of the line-protocol server becomes one `Msg`
  token on the modelled stdout or stderr stream.
- `strconv.Atoi`, `strconv.ParseBool`, `strings.IndexByte` and Go string
  slicing are modelled over the character lists of Lean strings; the
  inputs at stake are ASCII, where bytes and characters agree.  Integer
  overflow and the range errors of `strconv` are not modelled.
-/

namespace Benchserve

/-! ## Models of Go library primitives -/

/-- Digit-string parser underlying `strconv.Atoi`: at least one character,
all decimal digits. -/
def parseDigits (cs : List Char) : Option Nat :=
  if cs.isEmpty then none
  else if cs.all Char.isDigit then
    some (cs.foldl (fun a c => a * 10 + (c.toNat - 48)) 0)
  else none

/-- Model of `strconv.Atoi`: optional single sign, then decimal digits.
Range errors of the Go function are not modelled. -/
def atoi (s : String) : Option Int :=
  match s.data with
  | '+' :: rest => (parseDigits rest).map Int.ofNat
  | '-' :: rest => (parseDigits rest).map (fun n => -(n : Int))
  | cs => (parseDigits cs).map Int.ofNat

/-- Model of `strconv.ParseBool`: accepts exactly the Go literal set. -/
def parseBool (s : String) : Option Bool :=
  if s = "1" ∨ s = "t" ∨ s = "T" ∨ s = "TRUE" ∨ s = "true" ∨ s = "True" then
    some true
  else if s = "0" ∨ s = "f" ∨ s = "F" ∨ s = "FALSE" ∨ s = "false" ∨ s = "False" then
    some false
  else none

/-- First index of a character in a list, or `none`; models
`strings.IndexByte` (which returns -1 when absent) on ASCII strings. -/
def indexOfChar : List Char → Char → Option Nat
  | [], _ => none
  | x :: xs, c => if x = c then some 0 else (indexOfChar xs c).map (· + 1)

/-- Go string slicing `s[:n]` on ASCII strings. -/
def strTake (s : String) (n : Nat) : String := ⟨s.data.take n⟩

/-- Go string slicing `s[n:]` on ASCII strings. -/
def strDrop (s : String) (n : Nat) : String := ⟨s.data.drop n⟩

/-- Model of `runtime.GOMAXPROCS(n)` acting on the current setting: the
setting changes only when `n >= 1`; the result is the new current value. -/
def setGomaxprocs (n cur : Int) : Int :=
  if n < 1 then cur else n

/-! ## Data model: the reflected `testing.B` state and benchmark entries -/

/-- The fields of `testing.B` that the server writes (`N`) or reads back by
reflection after a run (`duration`, `bytes`, `netAllocs`, `netBytes`,
`failed`, `showAllocResult`). -/
structure BState where
  N : Int
  duration : Int
  bytes : Int
  netAllocs : Nat
  netBytes : Nat
  failed : Bool
  showAllocResult : Bool

/-- `testing.InternalBenchmark`: a name and a body.  The body is opaque to
the coordinator; it may mutate the `testing.B` state (including `N`) and
the process-wide GOMAXPROCS value, so it is modelled as an arbitrary
function of both. -/
structure InternalBenchmark where
  Name : String
  F : BState → Int → BState × Int

/-- The fields of `testing.BenchmarkResult` that the server fills in. -/
structure BenchmarkResult where
  N : Int
  T : Int
  Bytes : Int
  MemAllocs : Nat
  MemBytes : Nat
deriving DecidableEq

/-- `Result` of the line-protocol server (server.go): an embedded
`testing.BenchmarkResult` plus the two reflected flags. -/
structure Result where
  toBenchmarkResult : BenchmarkResult
  Failed : Bool
  ShowAllocResult : Bool
deriving DecidableEq

/-- Go field promotion of the embedded result: `r.N`. -/
def Result.N (r : Result) : Int := r.toBenchmarkResult.N

/-- Go field promotion of the embedded result: `r.MemAllocs`. -/
def Result.MemAllocs (r : Result) : Nat := r.toBenchmarkResult.MemAllocs

/-- Go field promotion of the embedded result: `r.MemBytes`. -/
def Result.MemBytes (r : Result) : Nat := r.toBenchmarkResult.MemBytes

/-- `runBenchmark` of server.go: build a fresh `testing.B` with `N := n`,
hand it to the body (which runs on its own goroutine; the coordinator
blocks on the WaitGroup, so the call is a pure blocking join and is
modelled as a function call), then read the fields back by reflection.
`runtime.GC`, `SetParallelism(1)` and the timer calls only touch
engine-internal state that is never reflected back, so they leave no
trace in the model.  The second component is the GOMAXPROCS value after
the body ran.  Note `r.N` is set from the argument `n`, not from the
possibly mutated `tb.N`. -/
def runBenchmark (b : InternalBenchmark) (n : Int) (gmp : Int) : Result × Int :=
  let tb0 : BState :=
    { N := n, duration := 0, bytes := 0, netAllocs := 0, netBytes := 0,
      failed := false, showAllocResult := false }
  let out := b.F tb0 gmp
  let tb := out.1
  ({ toBenchmarkResult :=
      { N := n, T := tb.duration, Bytes := tb.bytes,
        MemAllocs := tb.netAllocs, MemBytes := tb.netBytes },
     Failed := tb.failed, ShowAllocResult := tb.showAllocResult },
   out.2)

/-- `Result` of the JSON-RPC server variant: embedded
`testing.BenchmarkResult` plus `ReportAllocs` and the unexported
`failed`. -/
structure RPCResult where
  toBenchmarkResult : BenchmarkResult
  ReportAllocs : Bool
  failed : Bool
deriving DecidableEq

/-- Go field promotion of the embedded result: `r.N`. -/
def RPCResult.N (r : RPCResult) : Int := r.toBenchmarkResult.N

/-- `runBenchmark` of the JSON-RPC server variant; identical logic to the
line-protocol one, with the two flags under their names in that file. -/
def runBenchmarkRPC (b : InternalBenchmark) (n : Int) (gmp : Int) : RPCResult × Int :=
  let tb0 : BState :=
    { N := n, duration := 0, bytes := 0, netAllocs := 0, netBytes := 0,
      failed := false, showAllocResult := false }
  let out := b.F tb0 gmp
  let tb := out.1
  ({ toBenchmarkResult :=
      { N := n, T := tb.duration, Bytes := tb.bytes,
        MemAllocs := tb.netAllocs, MemBytes := tb.netBytes },
     ReportAllocs := tb.showAllocResult, failed := tb.failed },
   out.2)

/-! ## Line-protocol front end (server.go) -/

/-- One print call of the line-protocol server.  Each constructor stands
for one `fmt` call site in server.go, carrying the data that call
interpolates; `memString` stands for the `"\t" ++ r.MemString()` piece
(whose text is a function of `MemAllocs`, `MemBytes` and `N`). -/
inductive Msg where
  | setUsage
  | badBenchmem (v : String)
  | runUsage
  | badCpu (v : String)
  | notFound (name : String)
  | badIters (v : Int)
  | benchName (s : String)
  | failLine (s : String)
  | benchResult (r : BenchmarkResult)
  | memString (allocs bytes : Nat)
  | newline
  | leak (name : String) (p : Int)
deriving DecidableEq

/-- The line-protocol server state (server.go `type server`). -/
structure server where
  benchmarks : List InternalBenchmark
  benchmem : Bool

/-- `newServer` of server.go: stores the extracted benchmark list as-is;
there is no duplicate-name check in this variant. -/
def newServerLine (benchmarks : List InternalBenchmark) : server :=
  { benchmarks := benchmarks, benchmem := false }

/-- The lookup loop of `cmdRun`: first entry whose name matches, or the
zero value of `testing.InternalBenchmark` (empty name, nil body — the
body placeholder here is never invoked because `cmdRun` bails out on an
empty name). -/
def lookupBench : List InternalBenchmark → String → InternalBenchmark
  | [], _ => { Name := "", F := fun tb g => (tb, g) }
  | x :: rest, name => if x.Name = name then x else lookupBench rest name

/-- `benchmarkName` of server.go: full display name of a benchmark
including the procs suffix. -/
def benchmarkName (name : String) (n : Int) : String :=
  if n ≠ 1 then name ++ "-" ++ toString n else name

/-- The suffix-parsing block of `cmdRun` (the `strings.IndexByte` branch):
split the name token at its first `-`, parse everything after it as the
procs value; `.error` carries the substring whose `Atoi` failed (printed
in the `bad cpu value` message). -/
def parseNameProcs (a0 : String) : Except String (String × Int) :=
  match indexOfChar a0.data '-' with
  | none => .ok (a0, 1)
  | some i =>
    match atoi (strDrop a0 (i + 1)) with
    | none => .error (strDrop a0 (i + 1))
    | some p => .ok (strTake a0 i, p)

/-- Everything observable about one `cmdRun` call: the tokens printed to
stdout and stderr, which benchmark (if any) was handed to the engine with
which iteration count and procs value, and the process-wide GOMAXPROCS
value afterwards. -/
structure CmdRunOut where
  stdout : List Msg
  stderr : List Msg
  invoked : Option (String × Int × Int)
  gomaxprocs : Int
deriving DecidableEq

/-- `cmdRun` of server.go.  `gmp` is the process-wide GOMAXPROCS value on
entry. -/
def cmdRun (s : server) (args : List String) (gmp : Int) : CmdRunOut :=
  match args with
  | a0 :: a1 :: _ =>
    match parseNameProcs a0 with
    | .error bad => ⟨[], [.badCpu bad], none, gmp⟩
    | .ok (name, procs) =>
      let bench := lookupBench s.benchmarks name
      if bench.Name = "" then ⟨[], [.notFound name], none, gmp⟩
      else
        match atoi a1 with
        | none => ⟨[], [.badIters 0], none, gmp⟩
        | some iters =>
          if iters ≤ 0 then ⟨[], [.badIters iters], none, gmp⟩
          else
            let benchName := benchmarkName bench.Name procs
            let gmp1 := setGomaxprocs procs gmp
            let rg := runBenchmark bench iters gmp1
            let r := rg.1
            let gmp2 := rg.2
            if r.Failed then
              ⟨[.benchName benchName], [.failLine benchName],
               some (bench.Name, iters, procs), gmp2⟩
            else
              ⟨[.benchName benchName, .benchResult r.toBenchmarkResult] ++
                 (if s.benchmem || r.ShowAllocResult then
                    [.memString r.MemAllocs r.MemBytes] else []) ++
                 [.newline],
               if gmp2 ≠ procs then [.leak benchName gmp2] else [],
               some (bench.Name, iters, procs), gmp2⟩
  | _ => ⟨[], [.runUsage], none, gmp⟩

/-- `cmdSet` of server.go: recognizes exactly the option `benchmem`;
returns the new server state and the stderr tokens. -/
def cmdSet (s : server) (args : List String) : server × List Msg :=
  match args with
  | a0 :: a1 :: _ =>
    if a0 ≠ "benchmem" then (s, [.setUsage])
    else
      match parseBool a1 with
      | none => (s, [.badBenchmem a1])
      | some b => ({ s with benchmem := b }, [])
  | _ => (s, [.setUsage])

/-! ## JSON-RPC front end (the RPC server variant) -/

/-- `Options` of the RPC variant. -/
structure Options where
  Benchmem : Bool
deriving DecidableEq

/-- `Run` request of the RPC variant. -/
structure Run where
  Name : String
  Procs : Int
  N : Int
deriving DecidableEq

/-- `Server` of the RPC variant: a name-keyed map of benchmarks (modelled
as an association list with unique keys) and the current options. -/
structure Server where
  m : List (String × InternalBenchmark)
  opt : Options

/-- Go map read `s.m[name]` on the association list. -/
def mapLookup : List (String × InternalBenchmark) → String → Option InternalBenchmark
  | [], _ => none
  | (k, v) :: rest, key => if k = key then some v else mapLookup rest key

/-- The registration loop of the RPC `newServer`: insert each benchmark,
failing fatally (`log.Fatalf`, modelled as `.error`) when a name is
already present. -/
def buildMap : List InternalBenchmark → List (String × InternalBenchmark) →
    Except String (List (String × InternalBenchmark))
  | [], acc => .ok acc
  | b :: rest, acc =>
    if (mapLookup acc b.Name).isSome then
      .error ("found two benchmarks named " ++ b.Name)
    else
      buildMap rest (acc ++ [(b.Name, b)])

/-- `newServer` of the RPC variant: duplicate names abort construction. -/
def newServer (benchmarks : List InternalBenchmark) : Except String Server :=
  match buildMap benchmarks [] with
  | .error msg => .error msg
  | .ok m => .ok { m := m, opt := { Benchmem := false } }

/-- The errors the RPC `Server.Run` can return, one constructor per
`fmt.Errorf` call site, carrying the interpolated data. -/
inductive RPCError where
  | notFound (name : String)
  | failed (name : String)
  | leftGomaxprocs (name : String) (p : Int)
deriving DecidableEq

/-- `Server.Run` of the RPC variant.  A non-nil Go error makes net/rpc
send the error to the caller and drop the reply value, so the method is
modelled as returning either the error or the Result; the second
component is the process-wide GOMAXPROCS value afterwards. -/
def Server.Run (s : Server) (args : Run) (gmp : Int) :
    Except RPCError RPCResult × Int :=
  match mapLookup s.m args.Name with
  | none => (.error (.notFound args.Name), gmp)
  | some b =>
    let gmp1 := setGomaxprocs args.Procs gmp
    let rg := runBenchmarkRPC b args.N gmp1
    let reply := rg.1
    let gmp2 := rg.2
    if reply.failed then (.error (.failed args.Name), gmp2)
    else if gmp2 ≠ args.Procs then (.error (.leftGomaxprocs b.Name gmp2), gmp2)
    else (.ok reply, gmp2)

/-! ## Serving one RPC connection

`Server.serve` accepts one connection at a time and calls
`jsonrpc.ServeConn` on it synchronously, so distinct connections are
serialized by the loop itself.  Within one connection, however,
`jsonrpc.ServeConn` runs the net/rpc `ServeCodec` loop, which decodes
requests in order and dispatches every decoded call in a fresh goroutine
(`go service.call`); nothing in that loop, nor in `Server.serve`, waits
for a dispatched handler to return before reading the next request.
Each dispatched handler executes the registered method — for a run
request, `Server.Run` — so the handling of one connection is modelled as
a small-step transition relation on the codec state, in which a dispatch
and the completion of an earlier handler can interleave freely. -/

/-- State of the net/rpc codec loop on one accepted connection: the
requests the read loop has not yet decoded, and the number of dispatched
handler goroutines that have not yet returned (each of them is executing
`Server.Run` for its request). -/
structure CodecState where
  toRead : List Run
  inFlight : Nat
deriving DecidableEq

/-- One step of the net/rpc codec loop on a connection: `dispatch`
decodes the next pending request and starts its handler goroutine
(`go service.call`), without waiting for earlier handlers; `finish`
retires one running handler after it wrote its response. -/
inductive codecStep : CodecState → CodecState → Prop
  | dispatch (r : Run) (rest : List Run) (k : Nat) :
      codecStep ⟨r :: rest, k⟩ ⟨rest, k + 1⟩
  | finish (rs : List Run) (k : Nat) :
      codecStep ⟨rs, k + 1⟩ ⟨rs, k⟩

/-! ## Concrete benchmarks and servers used as test inputs -/

/-- A benchmark body that does nothing. -/
def idBody : BState → Int → BState × Int := fun tb g => (tb, g)

/-- A benchmark body that succeeds but leaves GOMAXPROCS at 7. -/
def leakBody : BState → Int → BState × Int := fun tb _ => (tb, 7)

/-- A benchmark body that reports failure and leaves GOMAXPROCS at 7. -/
def failLeakBody : BState → Int → BState × Int :=
  fun tb _ => ({ tb with failed := true }, 7)

/-- A body distinguishable from `idBody` by the bytes counter it sets. -/
def bytesBody : BState → Int → BState × Int := fun tb g => ({ tb with bytes := 1 }, g)

/-- A line-protocol server hosting only the leaking benchmark. -/
def lineLeakServer : server :=
  { benchmarks := [⟨"A", leakBody⟩], benchmem := false }

/-- A line-protocol server hosting only the failing, leaking benchmark. -/
def failLeakServer : server :=
  { benchmarks := [⟨"A", failLeakBody⟩], benchmem := false }

/-- The RPC server hosting only the leaking benchmark. -/
def rpcLeakServer : Server :=
  { m := [("A", ⟨"A", leakBody⟩)], opt := { Benchmem := false } }

/-- The request that triggers the leak on `rpcLeakServer`. -/
def leakRun : Run := { Name := "A", Procs := 1, N := 2 }

/-- A benchmark list with two entries sharing the name A. -/
def dupList : List InternalBenchmark := [⟨"A", idBody⟩, ⟨"A", bytesBody⟩]

/-- The empty line-protocol server, benchmem off. -/
def emptyServer : server := { benchmarks := [], benchmem := false }

/-- A line-protocol server whose only benchmark has a dash in its name. -/
def dashServer : server :=
  { benchmarks := [⟨"A-B", idBody⟩], benchmem := false }

/-- A line-protocol server with benchmem turned on. -/
def memServer : server := { benchmarks := [⟨"A", idBody⟩], benchmem := true }

end Benchserve
namespace Benchserve

/-! ## Helper lemmas -/

theorem lookupBench_name (bs : List InternalBenchmark) (nm : String) :
    (lookupBench bs nm).Name = nm ∨ (lookupBench bs nm).Name = "" := by
  induction bs with
  | nil => exact Or.inr rfl
  | cons x rest ih =>
    by_cases h : x.Name = nm
    · exact Or.inl (by simp [lookupBench, h])
    · simpa [lookupBench, h] using ih

theorem indexOfChar_eq_none (cs : List Char) (c : Char)
    (h : indexOfChar cs c = none) : c ∉ cs := by
  induction cs with
  | nil => simp
  | cons x xs ih =>
    by_cases hx : x = c
    · simp [indexOfChar, hx] at h
    · simp only [indexOfChar, hx, if_false, Option.map_eq_none'] at h
      simp [ih h, Ne.symm hx]

theorem indexOfChar_take (cs : List Char) (c : Char) (i : Nat)
    (h : indexOfChar cs c = some i) : c ∉ cs.take i := by
  induction cs generalizing i with
  | nil => simp [indexOfChar] at h
  | cons x xs ih =>
    by_cases hx : x = c
    · simp [indexOfChar, hx] at h
      subst h
      simp
    · simp only [indexOfChar, hx, if_false, Option.map_eq_some'] at h
      obtain ⟨j, hj, rfl⟩ := h
      simp [List.take_cons, Ne.symm hx, ih j hj]

theorem parseNameProcs_ok_no_dash (a0 nm : String) (procs : Int)
    (h : parseNameProcs a0 = .ok (nm, procs)) : '-' ∉ nm.data := by
  unfold parseNameProcs at h
  split at h
  · cases h
    exact indexOfChar_eq_none _ _ (by assumption)
  · split at h
    · cases h
    · cases h
      exact indexOfChar_take _ _ _ (by assumption)

/-- The success path of `cmdRun`: once the name parses, the benchmark is
found and the iteration count is a positive integer, `cmdRun` runs the
benchmark and formats the outcome. -/
theorem cmdRun_run_eq (s : server) (a0 a1 : String) (rest : List String)
    (gmp : Int) (name : String) (procs : Int) (iters : Int)
    (hp : parseNameProcs a0 = .ok (name, procs))
    (hne : (lookupBench s.benchmarks name).Name ≠ "")
    (hai : atoi a1 = some iters) (hit : ¬ iters ≤ 0) :
    cmdRun s (a0 :: a1 :: rest) gmp =
      (let bench := lookupBench s.benchmarks name
       let bn := benchmarkName bench.Name procs
       let rg := runBenchmark bench iters (setGomaxprocs procs gmp)
       if rg.1.Failed then
         ⟨[.benchName bn], [.failLine bn], some (bench.Name, iters, procs), rg.2⟩
       else
         ⟨[.benchName bn, .benchResult rg.1.toBenchmarkResult] ++
            (if s.benchmem || rg.1.ShowAllocResult then
               [.memString rg.1.MemAllocs rg.1.MemBytes] else []) ++
            [.newline],
          if rg.2 ≠ procs then [.leak bn rg.2] else [],
          some (bench.Name, iters, procs), rg.2⟩) := by
  simp [cmdRun, hp, hne, hai, hit]

/-- The name `cmdRun` hands to the engine never contains a dash: it is
either a dash-free request token or the part of the token before its
first dash. -/
theorem cmdRun_invoked_no_dash (s : server) (args : List String) (gmp : Int)
    (nm : String) (it pr : Int)
    (h : (cmdRun s args gmp).invoked = some (nm, it, pr)) : '-' ∉ nm.data := by
  match args with
  | [] => simp [cmdRun] at h
  | [a0] => simp [cmdRun] at h
  | a0 :: a1 :: rest =>
    cases hp : parseNameProcs a0 with
    | error bad => simp [cmdRun, hp] at h
    | ok np =>
      obtain ⟨name, procs⟩ := np
      by_cases hne : (lookupBench s.benchmarks name).Name = ""
      · simp [cmdRun, hp, hne] at h
      · cases hai : atoi a1 with
        | none => simp [cmdRun, hp, hne, hai] at h
        | some iters =>
          by_cases hit : iters ≤ 0
          · simp [cmdRun, hp, hne, hai, hit] at h
          · have hbn : (lookupBench s.benchmarks name).Name = name :=
              (lookupBench_name s.benchmarks name).resolve_right hne
            have hnd : '-' ∉ name.data := parseNameProcs_ok_no_dash a0 name procs hp
            rw [cmdRun_run_eq s a0 a1 rest gmp name procs iters hp hne hai hit] at h
            by_cases hfail :
                (runBenchmark (lookupBench s.benchmarks name) iters
                  (setGomaxprocs procs gmp)).1.Failed
            · simp [hfail] at h
              rw [← h.1, hbn]
              exact hnd
            · simp [hfail] at h
              rw [← h.1, hbn]
              exact hnd

theorem mapLookup_append_left (acc : List (String × InternalBenchmark))
    (e : String × InternalBenchmark) (k : String)
    (h : (mapLookup acc k).isSome) : (mapLookup (acc ++ [e]) k).isSome := by
  induction acc with
  | nil => simp [mapLookup] at h
  | cons x rest ih =>
    obtain ⟨k', v⟩ := x
    by_cases hk : k' = k
    · simp [mapLookup, hk]
    · simp only [mapLookup, hk, if_false] at h ⊢
      exact ih h

theorem mapLookup_append_self (acc : List (String × InternalBenchmark))
    (k : String) (v : InternalBenchmark) :
    (mapLookup (acc ++ [(k, v)]) k).isSome := by
  induction acc with
  | nil => simp [mapLookup]
  | cons x rest ih =>
    obtain ⟨k', v'⟩ := x
    by_cases hk : k' = k
    · simp [mapLookup, hk]
    · simp only [List.cons_append, mapLookup, hk, if_false]
      exact ih

/-- The registration loop aborts whenever the remaining entries repeat a
name among themselves or against the accumulator. -/
theorem buildMap_error (bs : List InternalBenchmark) :
    ∀ acc : List (String × InternalBenchmark),
    (¬ (bs.map (fun b => b.Name)).Nodup
      ∨ ∃ b ∈ bs, (mapLookup acc b.Name).isSome) →
    ∃ msg, buildMap bs acc = .error msg := by
  induction bs with
  | nil =>
    intro acc h
    rcases h with h | ⟨b, hb, _⟩
    · simp at h
    · simp at hb
  | cons b rest ih =>
    intro acc h
    by_cases hdup : (mapLookup acc b.Name).isSome
    · exact ⟨"found two benchmarks named " ++ b.Name, by simp [buildMap, hdup]⟩
    · have hstep : buildMap (b :: rest) acc = buildMap rest (acc ++ [(b.Name, b)]) := by
        simp [buildMap, hdup]
      rw [hstep]
      apply ih
      rcases h with h | ⟨b', hb', hsome⟩
      · rw [List.map_cons, List.nodup_cons] at h
        push_neg at h
        by_cases hmem : b.Name ∈ rest.map (fun b => b.Name)
        · obtain ⟨b', hb', hname⟩ := List.mem_map.mp hmem
          refine Or.inr ⟨b', hb', ?_⟩
          rw [hname]
          exact mapLookup_append_self acc b.Name b
        · exact Or.inl (h hmem)
      · rcases List.mem_cons.mp hb' with hb2 | hb2
        · rw [hb2] at hsome
          exact absurd hsome hdup
        · exact Or.inr ⟨b', hb2, mapLookup_append_left acc _ _ hsome⟩

end Benchserve

namespace Benchserve

/-! ## Claim theorems -/

/-- Claim C1: for every run of a benchmark with requested iteration count
`n > 0`, the Result returned by the coordinator has its iterations field
equal to `n`, in both server variants, regardless of what the benchmark
body does to its internal iteration state or to anything else. -/
theorem c1_result_iterations_eq_requested
    (b : InternalBenchmark) (n gmp : Int) (h : 0 < n) :
    (runBenchmark b n gmp).1.N = n ∧ (runBenchmarkRPC b n gmp).1.N = n := by
  constructor <;> rfl

/-- Witness for C1 at a concrete benchmark whose body overwrites the
iteration counter: the returned Result still echoes the request. -/
theorem c1_result_iterations_eq_requested_witness :
    (0 : Int) < 5 ∧
      ((runBenchmark ⟨"B", fun tb g => ({ tb with N := 999 }, g)⟩ 5 1).1.N = 5 ∧
       (runBenchmarkRPC ⟨"B", fun tb g => ({ tb with N := 999 }, g)⟩ 5 1).1.N = 5) :=
  ⟨by decide,
   c1_result_iterations_eq_requested ⟨"B", fun tb g => ({ tb with N := 999 }, g)⟩ 5 1
     (by decide)⟩

/-- Counterexample to C2 as stated: on the RPC front end a successful run
with a parallelism leak does not return its Result at all — `Server.Run`
returns the leak error, so the caller gets no Result. -/
theorem c2_rpc_leak_error_counterexample :
    (Server.Run rpcLeakServer leakRun 1).1 = .error (.leftGomaxprocs "A" 7)
    ∧ ∀ r : RPCResult, (Server.Run rpcLeakServer leakRun 1).1 ≠ .ok r := by
  have he : (Server.Run rpcLeakServer leakRun 1).1
      = .error (.leftGomaxprocs "A" 7) := by rfl
  refine ⟨he, fun r h => ?_⟩
  rw [he] at h
  simp at h

/-- Claim C2 as amended: when a successful run leaks the parallelism
degree, the line-protocol front end prints the Result on stdout and
additionally reports the leak on stderr; the RPC front end instead
returns an error carrying the leak detail in place of the Result. -/
theorem c2_leak_reported_with_result :
    (∀ (s : server) (a0 a1 : String) (rest : List String) (gmp : Int)
       (name : String) (procs iters : Int) (rg : Result × Int),
       parseNameProcs a0 = .ok (name, procs) →
       (lookupBench s.benchmarks name).Name ≠ "" →
       atoi a1 = some iters → ¬ iters ≤ 0 →
       runBenchmark (lookupBench s.benchmarks name) iters
         (setGomaxprocs procs gmp) = rg →
       rg.1.Failed = false → rg.2 ≠ procs →
       (Msg.benchResult rg.1.toBenchmarkResult ∈
          (cmdRun s (a0 :: a1 :: rest) gmp).stdout)
       ∧ (cmdRun s (a0 :: a1 :: rest) gmp).stderr =
           [.leak (benchmarkName (lookupBench s.benchmarks name).Name procs) rg.2])
    ∧ (∀ (srv : Server) (args : Run) (gmp : Int) (b : InternalBenchmark)
         (rg : RPCResult × Int),
       mapLookup srv.m args.Name = some b →
       runBenchmarkRPC b args.N (setGomaxprocs args.Procs gmp) = rg →
       rg.1.failed = false → rg.2 ≠ args.Procs →
       (Server.Run srv args gmp).1 = .error (.leftGomaxprocs b.Name rg.2)) := by
  refine ⟨fun s a0 a1 rest gmp name procs iters rg hp hne hai hit hrg hok hlk => ?_,
          fun srv args gmp b rg hm hrg hok hlk => ?_⟩
  · rw [cmdRun_run_eq s a0 a1 rest gmp name procs iters hp hne hai hit]
    simp [hrg, hok, hlk]
  · simp [Server.Run, hm, hrg, hok, hlk]

/-- Witness for the amended C2 at the leaking benchmark: the line server
prints the Result and the leak warning; the RPC server returns the leak
error. -/
theorem c2_leak_reported_with_result_witness :
    ((Msg.benchResult ⟨2, 0, 0, 0, 0⟩ ∈ (cmdRun lineLeakServer ["A", "2"] 1).stdout)
      ∧ (cmdRun lineLeakServer ["A", "2"] 1).stderr = [.leak "A" 7])
    ∧ (Server.Run rpcLeakServer leakRun 1).1 = .error (.leftGomaxprocs "A" 7) :=
  ⟨c2_leak_reported_with_result.1 lineLeakServer "A" "2" [] 1 "A" 1 2
     (runBenchmark ⟨"A", leakBody⟩ 2 (setGomaxprocs 1 1)) (by rfl) (by decide)
     (by rfl) (by decide) (by rfl) (by rfl) (by decide),
   c2_leak_reported_with_result.2 rpcLeakServer leakRun 1 ⟨"A", leakBody⟩
     (runBenchmarkRPC ⟨"A", leakBody⟩ 2 (setGomaxprocs 1 1)) (by rfl) (by rfl)
     (by rfl) (by decide)⟩

/-- Counterexample to C3 as stated: a failed run that also leaks the
parallelism degree produces no leak warning — the coordinator returns
right after the failure report, skipping the check. -/
theorem c3_failed_run_skips_check_counterexample :
    (cmdRun failLeakServer ["A", "5"] 1).gomaxprocs = 7
    ∧ (cmdRun failLeakServer ["A", "5"] 1).stderr = [.failLine "A"]
    ∧ ∀ (nm : String) (p : Int),
        Msg.leak nm p ∉ (cmdRun failLeakServer ["A", "5"] 1).stderr := by
  have hst : (cmdRun failLeakServer ["A", "5"] 1).stderr = [.failLine "A"] := by
    decide
  refine ⟨by decide, hst, fun nm p h => ?_⟩
  rw [hst] at h
  simp at h

/-- Claim C3 as amended: after a run the engine does not report as failed,
the coordinator re-reads the parallelism degree and warns exactly when it
differs from the requested value; when the engine reports failure the
coordinator returns after the failure report and the leak check is
skipped. -/
theorem c3_leak_check_unless_failed
    (s : server) (a0 a1 : String) (rest : List String) (gmp : Int)
    (name : String) (procs iters : Int) (rg : Result × Int)
    (hp : parseNameProcs a0 = .ok (name, procs))
    (hne : (lookupBench s.benchmarks name).Name ≠ "")
    (hai : atoi a1 = some iters) (hit : ¬ iters ≤ 0)
    (hrg : runBenchmark (lookupBench s.benchmarks name) iters
      (setGomaxprocs procs gmp) = rg) :
    (rg.1.Failed = false →
      (cmdRun s (a0 :: a1 :: rest) gmp).stderr =
        if rg.2 ≠ procs then
          [.leak (benchmarkName (lookupBench s.benchmarks name).Name procs) rg.2]
        else [])
    ∧ (rg.1.Failed = true →
      (cmdRun s (a0 :: a1 :: rest) gmp).stderr =
        [.failLine (benchmarkName (lookupBench s.benchmarks name).Name procs)]) := by
  constructor <;> intro hfl <;>
    rw [cmdRun_run_eq s a0 a1 rest gmp name procs iters hp hne hai hit] <;>
    simp [hrg, hfl]

/-- Witness for the amended C3: a successful leaking run gets the warning. -/
theorem c3_leak_check_unless_failed_witness :
    (cmdRun lineLeakServer ["A", "2"] 1).stderr = [Msg.leak "A" 7] :=
  (c3_leak_check_unless_failed lineLeakServer "A" "2" [] 1 "A" 1 2
     (runBenchmark ⟨"A", leakBody⟩ 2 (setGomaxprocs 1 1)) (by rfl) (by decide)
     (by rfl) (by decide) (by rfl)).1 (by rfl)

/-- Claim C4: a line-protocol run command naming an unregistered benchmark,
or whose iteration argument does not parse or is not positive, prints the
specific error to stderr, never invokes the engine, prints nothing to
stdout, and leaves the parallelism degree unchanged. -/
theorem c4_bad_request_runs_nothing
    (s : server) (a0 a1 : String) (rest : List String) (gmp : Int)
    (nm : String) (procs : Int) (hp : parseNameProcs a0 = .ok (nm, procs)) :
    ((lookupBench s.benchmarks nm).Name = "" →
        cmdRun s (a0 :: a1 :: rest) gmp = ⟨[], [.notFound nm], none, gmp⟩)
    ∧ ((lookupBench s.benchmarks nm).Name ≠ "" →
        (atoi a1 = none →
          cmdRun s (a0 :: a1 :: rest) gmp = ⟨[], [.badIters 0], none, gmp⟩)
        ∧ (∀ it, atoi a1 = some it → it ≤ 0 →
            cmdRun s (a0 :: a1 :: rest) gmp = ⟨[], [.badIters it], none, gmp⟩)) := by
  refine ⟨fun hnf => ?_, fun hf => ⟨fun hai => ?_, fun it hai hle => ?_⟩⟩
  · simp [cmdRun, hp, hnf]
  · simp [cmdRun, hp, hf, hai]
  · simp [cmdRun, hp, hf, hai, hle]

/-- Witness for C4: unknown name, unparseable count, zero count. -/
theorem c4_bad_request_runs_nothing_witness :
    cmdRun lineLeakServer ["B", "5"] 3 = ⟨[], [.notFound "B"], none, 3⟩
    ∧ cmdRun lineLeakServer ["A", "x"] 3 = ⟨[], [.badIters 0], none, 3⟩
    ∧ cmdRun lineLeakServer ["A", "0"] 3 = ⟨[], [.badIters 0], none, 3⟩ :=
  ⟨(c4_bad_request_runs_nothing lineLeakServer "B" "5" [] 3 "B" 1 (by rfl)).1
     (by decide),
   ((c4_bad_request_runs_nothing lineLeakServer "A" "x" [] 3 "A" 1 (by rfl)).2
     (by decide)).1 (by rfl),
   ((c4_bad_request_runs_nothing lineLeakServer "A" "0" [] 3 "A" 1 (by rfl)).2
     (by decide)).2 0 (by rfl) (by decide)⟩

/-- Counterexample to C5 as stated: the line-protocol variant builds its
registry from a duplicate-named list without failing, serving proceeds,
and a run request executes the first matching entry (its result shows the
first body ran: bytes stayed 0). -/
theorem c5_line_variant_accepts_duplicates_counterexample :
    newServerLine dupList = { benchmarks := dupList, benchmem := false }
    ∧ (cmdRun (newServerLine dupList) ["A", "2"] 4).invoked = some ("A", 2, 1)
    ∧ (cmdRun (newServerLine dupList) ["A", "2"] 4).stdout
        = [.benchName "A", .benchResult ⟨2, 0, 0, 0, 0⟩, .newline] :=
  ⟨rfl, by decide, by decide⟩

/-- Claim C5 as amended: duplicate names are construction-fatal in the RPC
variant; the line-protocol variant performs no duplicate check — its
registry is the list as given and lookup returns the first entry with the
matching name. -/
theorem c5_duplicate_name_handling :
    (∀ bs : List InternalBenchmark, ¬ (bs.map (fun b => b.Name)).Nodup →
       ∃ msg, newServer bs = .error msg)
    ∧ (∀ bs : List InternalBenchmark,
        newServerLine bs = { benchmarks := bs, benchmem := false })
    ∧ (∀ (b : InternalBenchmark) (rest : List InternalBenchmark),
        lookupBench (b :: rest) b.Name = b) := by
  refine ⟨fun bs hdup => ?_, fun bs => rfl, fun b rest => by simp [lookupBench]⟩
  obtain ⟨msg, hmsg⟩ := buildMap_error bs [] (Or.inl hdup)
  exact ⟨msg, by simp [newServer, hmsg]⟩

/-- Witness for the amended C5: the duplicate list makes the RPC
constructor fail. -/
theorem c5_duplicate_name_handling_witness :
    ∃ msg, newServer dupList = .error msg :=
  c5_duplicate_name_handling.1 dupList (by decide)

/-- Claim C6, refuted on the code: from a connection that has two
pipelined run requests pending, the codec loop can dispatch both before
either handler returns, reaching a state with two benchmark runs in
flight — although the package documents that it serves a single request
at a time, so the code diverges from its own documentation. -/
theorem c6_pipelined_runs_overlap :
    ∃ st : CodecState,
      Relation.ReflTransGen codecStep { toRead := [leakRun, leakRun], inFlight := 0 } st
      ∧ 1 < st.inFlight := by
  refine ⟨{ toRead := [], inFlight := 2 }, ?_, by norm_num⟩
  have h1 : codecStep { toRead := [leakRun, leakRun], inFlight := 0 }
      { toRead := [leakRun], inFlight := 1 } :=
    codecStep.dispatch leakRun [leakRun] 0
  have h2 : codecStep { toRead := [leakRun], inFlight := 1 }
      { toRead := [], inFlight := 2 } :=
    codecStep.dispatch leakRun [] 1
  exact Relation.ReflTransGen.head h1 (Relation.ReflTransGen.single h2)

/-- Claim C7: the report of a successful line-protocol run contains the
memory statistics exactly when benchmem is set or the run requested
allocation reporting — and `set benchmem true` sets benchmem. -/
theorem c7_memstats_iff_benchmem_or_requested :
    (∀ (s : server) (a0 a1 : String) (rest : List String) (gmp : Int)
       (name : String) (procs iters : Int) (rg : Result × Int),
       parseNameProcs a0 = .ok (name, procs) →
       (lookupBench s.benchmarks name).Name ≠ "" →
       atoi a1 = some iters → ¬ iters ≤ 0 →
       runBenchmark (lookupBench s.benchmarks name) iters
         (setGomaxprocs procs gmp) = rg →
       rg.1.Failed = false →
       ((Msg.memString rg.1.MemAllocs rg.1.MemBytes ∈
           (cmdRun s (a0 :: a1 :: rest) gmp).stdout)
         ↔ (s.benchmem = true ∨ rg.1.ShowAllocResult = true)))
    ∧ (∀ s : server, (cmdSet s ["benchmem", "true"]).1.benchmem = true) := by
  refine ⟨fun s a0 a1 rest gmp name procs iters rg hp hne hai hit hrg hok => ?_,
          fun s => ?_⟩
  · rw [cmdRun_run_eq s a0 a1 rest gmp name procs iters hp hne hai hit]
    cases hb : s.benchmem <;> cases hs : rg.1.ShowAllocResult <;>
      simp [hrg, hok, hb, hs]
  · simp [cmdSet, parseBool]

/-- Witness for C7 on a server with benchmem on and a run that did not
request allocation reporting: memory stats are in the report. -/
theorem c7_memstats_iff_benchmem_or_requested_witness :
    (Msg.memString 0 0 ∈ (cmdRun memServer ["A", "2"] 1).stdout) ↔
      (memServer.benchmem = true ∨ false = true) :=
  c7_memstats_iff_benchmem_or_requested.1 memServer "A" "2" [] 1 "A" 1 2
    (runBenchmark ⟨"A", idBody⟩ 2 (setGomaxprocs 1 1)) (by rfl) (by decide)
    (by rfl) (by decide) (by rfl) (by rfl)

/-- Claim C8: the display name is the bare name when the parallelism is 1
and the dash-suffixed name otherwise; `run Foo-3 10` runs Foo with 10
iterations at parallelism 3 under display name Foo-3, and `run Foo 10`
runs it at parallelism 1 under display name Foo. -/
theorem c8_display_name :
    (∀ (name : String) (p : Int),
       benchmarkName name p = if p = 1 then name else name ++ "-" ++ toString p)
    ∧ (∀ (f : BState → Int → BState × Int) (gmp : Int),
        (cmdRun { benchmarks := [⟨"Foo", f⟩], benchmem := false }
           ["Foo-3", "10"] gmp).invoked = some ("Foo", 10, 3)
        ∧ (cmdRun { benchmarks := [⟨"Foo", f⟩], benchmem := false }
             ["Foo-3", "10"] gmp).stdout.head? = some (.benchName "Foo-3"))
    ∧ (∀ (f : BState → Int → BState × Int) (gmp : Int),
        (cmdRun { benchmarks := [⟨"Foo", f⟩], benchmem := false }
           ["Foo", "10"] gmp).invoked = some ("Foo", 10, 1)
        ∧ (cmdRun { benchmarks := [⟨"Foo", f⟩], benchmem := false }
             ["Foo", "10"] gmp).stdout.head? = some (.benchName "Foo")) := by
  refine ⟨fun name p => ?_, fun f gmp => ?_, fun f gmp => ?_⟩
  · unfold benchmarkName
    by_cases h : p = 1 <;> simp [h]
  · have hp : parseNameProcs "Foo-3" = .ok ("Foo", 3) := by rfl
    have hne : (lookupBench [(⟨"Foo", f⟩ : InternalBenchmark)] "Foo").Name ≠ "" := by
      simp [lookupBench]
    have hbn : benchmarkName "Foo" 3 = "Foo-3" := by decide
    rw [cmdRun_run_eq _ "Foo-3" "10" [] gmp "Foo" 3 10 hp hne (by rfl) (by norm_num)]
    by_cases hfail :
        (runBenchmark (⟨"Foo", f⟩ : InternalBenchmark) 10
          (setGomaxprocs 3 gmp)).1.Failed = true
    · simp [lookupBench, hfail, hbn]
    · simp [lookupBench, hfail, hbn]
  · have hp : parseNameProcs "Foo" = .ok ("Foo", 1) := by rfl
    have hne : (lookupBench [(⟨"Foo", f⟩ : InternalBenchmark)] "Foo").Name ≠ "" := by
      simp [lookupBench]
    have hbn : benchmarkName "Foo" 1 = "Foo" := by decide
    rw [cmdRun_run_eq _ "Foo" "10" [] gmp "Foo" 1 10 hp hne (by rfl) (by norm_num)]
    by_cases hfail :
        (runBenchmark (⟨"Foo", f⟩ : InternalBenchmark) 10
          (setGomaxprocs 1 gmp)).1.Failed = true
    · simp [lookupBench, hfail, hbn]
    · simp [lookupBench, hfail, hbn]

/-- Counterexample to C9 as stated: `set benchmem true junk` is not
exactly the option name followed by a boolean, yet it updates benchmem
and prints no error. -/
theorem c9_extra_args_accepted_counterexample :
    emptyServer.benchmem = false
    ∧ (cmdSet emptyServer ["benchmem", "true", "junk"]).1.benchmem = true
    ∧ (cmdSet emptyServer ["benchmem", "true", "junk"]).2 = [] :=
  ⟨by decide, by decide, by decide⟩

/-- Claim C9 as amended: a set command with fewer than two arguments, a
first argument other than benchmem, or an unparseable boolean prints an
error and leaves the state unchanged; when the first argument is benchmem
and the second parses as a boolean, the option is updated and any extra
arguments are ignored. -/
theorem c9_set_benchmem_behavior (s : server) (args : List String) :
    (args.length < 2 → cmdSet s args = (s, [.setUsage]))
    ∧ (∀ a0 a1 rest, args = a0 :: a1 :: rest → a0 ≠ "benchmem" →
        cmdSet s args = (s, [.setUsage]))
    ∧ (∀ a1 rest, args = "benchmem" :: a1 :: rest → parseBool a1 = none →
        cmdSet s args = (s, [.badBenchmem a1]))
    ∧ (∀ a1 rest b, args = "benchmem" :: a1 :: rest → parseBool a1 = some b →
        cmdSet s args = ({ s with benchmem := b }, [])) := by
  refine ⟨fun hlen => ?_,
          fun a0 a1 rest hargs ha0 => ?_,
          fun a1 rest hargs hpb => ?_,
          fun a1 rest b hargs hpb => ?_⟩
  · match args, hlen with
    | [], _ => rfl
    | [a], _ => rfl
  · subst hargs
    simp [cmdSet, ha0]
  · subst hargs
    simp [cmdSet, hpb]
  · subst hargs
    simp [cmdSet, hpb]

/-- Witness for the amended C9: wrong option, bad boolean, good boolean. -/
theorem c9_set_benchmem_behavior_witness :
    cmdSet emptyServer ["foo", "true"] = (emptyServer, [.setUsage])
    ∧ cmdSet emptyServer ["benchmem", "maybe"] = (emptyServer, [.badBenchmem "maybe"])
    ∧ cmdSet emptyServer ["benchmem", "true"] = ({ emptyServer with benchmem := true }, []) :=
  ⟨(c9_set_benchmem_behavior emptyServer _).2.1 "foo" "true" [] rfl (by decide),
   (c9_set_benchmem_behavior emptyServer _).2.2.1 "maybe" [] rfl (by rfl),
   (c9_set_benchmem_behavior emptyServer _).2.2.2 "true" [] true rfl (by rfl)⟩

/-- Claim C10: the run name token is split at its first dash; a suffix
that does not parse as an integer yields the bad-cpu error and nothing
runs; the name handed to lookup therefore never contains a dash, so a
registered benchmark whose name contains one can never be run; and the
parsed suffix is not required to be positive. -/
theorem c10_dash_suffix_parsing :
    (∀ (s : server) (a0 a1 : String) (rest : List String) (gmp : Int) (i : Nat),
       indexOfChar a0.data '-' = some i → atoi (strDrop a0 (i + 1)) = none →
       cmdRun s (a0 :: a1 :: rest) gmp =
         ⟨[], [.badCpu (strDrop a0 (i + 1))], none, gmp⟩)
    ∧ (∀ (s : server) (args : List String) (gmp : Int) (b : InternalBenchmark)
         (it pr : Int), b ∈ s.benchmarks → '-' ∈ b.Name.data →
         (cmdRun s args gmp).invoked ≠ some (b.Name, it, pr))
    ∧ (∀ (f : BState → Int → BState × Int) (gmp : Int),
       (cmdRun { benchmarks := [⟨"Foo", f⟩], benchmem := false }
          ["Foo-0", "5"] gmp).invoked = some ("Foo", 5, 0)) := by
  refine ⟨fun s a0 a1 rest gmp i hix hat => ?_,
          fun s args gmp b it pr hmem hdash hinv => ?_,
          fun f gmp => ?_⟩
  · have hp : parseNameProcs a0 = .error (strDrop a0 (i + 1)) := by
      simp [parseNameProcs, hix, hat]
    simp [cmdRun, hp]
  · exact cmdRun_invoked_no_dash s args gmp b.Name it pr hinv hdash
  · have hp : parseNameProcs "Foo-0" = .ok ("Foo", 0) := by rfl
    have hne : (lookupBench [(⟨"Foo", f⟩ : InternalBenchmark)] "Foo").Name ≠ "" := by
      simp [lookupBench]
    rw [cmdRun_run_eq _ "Foo-0" "5" [] gmp "Foo" 0 5 hp hne (by rfl) (by norm_num)]
    by_cases hfail :
        (runBenchmark (⟨"Foo", f⟩ : InternalBenchmark) 5
          (setGomaxprocs 0 gmp)).1.Failed = true
    · simp [lookupBench, hfail]
    · simp [lookupBench, hfail]

/-- Witness for C10: a bad suffix aborts; a dashed registered name is
never the one run; a zero suffix is accepted. -/
theorem c10_dash_suffix_parsing_witness :
    cmdRun lineLeakServer ["X-y", "5"] 3 = ⟨[], [.badCpu "y"], none, 3⟩
    ∧ (cmdRun dashServer ["A-B", "5"] 3).invoked ≠ some ("A-B", 5, 1)
    ∧ (cmdRun { benchmarks := [⟨"Foo", idBody⟩], benchmem := false }
         ["Foo-0", "5"] 3).invoked = some ("Foo", 5, 0) :=
  ⟨c10_dash_suffix_parsing.1 lineLeakServer "X-y" "5" [] 3 1 (by rfl) (by rfl),
   c10_dash_suffix_parsing.2.1 dashServer ["A-B", "5"] 3 ⟨"A-B", idBody⟩ 5 1
     (by simp [dashServer]) (by decide),
   c10_dash_suffix_parsing.2.2 idBody 3⟩

end Benchserve
